import Mathlib

/-!
Shallow embedding of the Game of Life core (`src/cells.rs`, `src/utils.rs`,
`src/universe.rs`): the `Cell` enum, the transition rule `hades`, and the
`Universe` grid with its seeding, neighbour counting, epoch stepping,
export and rendering operations, translated faithfully from the Rust
source.  Machine integers (`u32`, `u8`, `usize`) are modelled as `Nat`;
the arithmetic performed by the code on valid grids never overflows them,
and fallible indexing (Rust's panicking `Vec` index in seeding) is
modelled with `Option`.
-/

/-- `Cell` enum from `src/cells.rs`: two variants, `Dead = 0`, `Alive = 1`. -/
inductive Cell where
  | Dead : Cell
  | Alive : Cell
deriving DecidableEq, Repr

/-- The `as u8` numeric cast of a `Cell` (its discriminant). -/
def Cell.toNat : Cell → Nat
  | Cell.Dead => 0
  | Cell.Alive => 1

/-- The display glyph of a `Cell` (`Display for Cell` in `src/cells.rs`):
`◼` for `Alive`, `◻` for `Dead`. -/
def Cell.glyph : Cell → Char
  | Cell.Alive => '◼'
  | Cell.Dead => '◻'

/-- The transition rule `hades` from `src/utils.rs`, with the match arms in
source order: a live cell with fewer than two live neighbours dies; a live
cell with two or three survives; a live cell with more than three dies; a
dead cell with exactly three becomes alive; otherwise the cell keeps its
state. -/
def hades (is_alive : Cell) (living_neightbours : Nat) : Cell :=
  if is_alive = Cell.Alive ∧ living_neightbours < 2 then Cell.Dead
  else if is_alive = Cell.Alive ∧ (living_neightbours = 2 ∨ living_neightbours = 3) then
    Cell.Alive
  else if is_alive = Cell.Alive ∧ living_neightbours > 3 then Cell.Dead
  else if is_alive = Cell.Dead ∧ living_neightbours = 3 then Cell.Alive
  else is_alive

/-- The `Universe` struct from `src/universe.rs`: dimensions and a row-major
flattened grid. -/
structure Universe where
  width : Nat
  height : Nat
  cells : List Cell
deriving DecidableEq, Repr

namespace Universe

/-- `Universe::to_index`: `(self.width * row + col) as usize`. -/
def to_index (u : Universe) (row col : Nat) : Nat :=
  u.width * row + col

/-- `Universe::from_index`: `(index / width, index % width)`. -/
def from_index (u : Universe) (index : Nat) : Nat × Nat :=
  (index / u.width, index % u.width)

/-- `Universe::new`: `width * height` cells, all `Dead`. -/
def new (width height : Nat) : Universe :=
  { width := width, height := height,
    cells := List.replicate (width * height) Cell.Dead }

/-- `Universe::init_cells`: clones the grid, then for each `[row, col]` pair
writes `Alive` at `to_index(row, col)`.  The Rust `cells[idx] = …` indexing
panics when `idx` is out of bounds; the panic is modelled as `none`. -/
def init_cells (u : Universe) (initial_cells : List (Nat × Nat)) :
    Option Universe :=
  (initial_cells.foldlM
      (fun cs p =>
        let idx := u.to_index p.1 p.2
        if idx < cs.length then some (cs.set idx Cell.Alive) else none)
      u.cells).map
    (fun cs => { u with cells := cs })

/-- `Universe::init_single_cell`: seeds one coordinate via `init_cells`. -/
def init_single_cell (u : Universe) (row col : Nat) : Option Universe :=
  u.init_cells [(row, col)]

/-- `Universe::living_neightbour_count`: iterates `row_delta` over
`[height-1, height, height+1]` and `col_delta` over `[width-1, width,
width+1]`, wraps with `%`, skips the position whose wrapped coordinates
equal `(row, col)`, and sums the cell values at the remaining positions.
Reading `self.cells[idx]` is modelled with `getD … Cell.Dead`; the bounds
of the accessed indices are established separately. -/
def living_neightbour_count (u : Universe) (row col : Nat) : Nat :=
  [u.height - 1, u.height, u.height + 1].foldl
    (fun counts row_delta =>
      let r := (row + row_delta) % u.height
      [u.width - 1, u.width, u.width + 1].foldl
        (fun counts col_delta =>
          let c := (col + col_delta) % u.width
          if r = row ∧ c = col then counts
          else counts + (u.cells.getD (u.to_index r c) Cell.Dead).toNat)
        counts)
    0

/-- The list of `cells` indices read by `living_neightbour_count`, in the
order the loop visits them (the skipped centre position is not accessed). -/
def neighbourAccessIndices (u : Universe) (row col : Nat) : List Nat :=
  [u.height - 1, u.height, u.height + 1].foldl
    (fun acc row_delta =>
      let r := (row + row_delta) % u.height
      [u.width - 1, u.width, u.width + 1].foldl
        (fun acc col_delta =>
          let c := (col + col_delta) % u.width
          if r = row ∧ c = col then acc else acc ++ [u.to_index r c])
        acc)
    []

/-- `Universe::next_epoch`: clones the grid, computes every cell's successor
from the clone (`hades` of the old cell and its neighbour count on the old
grid), writes the results into a second clone, and replaces the grid. -/
def next_epoch (u : Universe) : Universe :=
  { u with
    cells :=
      u.cells.enum.map (fun ic =>
        let rc := u.from_index ic.1
        hades ic.2 (u.living_neightbour_count rc.1 rc.2)) }

/-- `Universe::cells_to_arr`: clones the grid and maps each cell to its
numeric value. -/
def cells_to_arr (u : Universe) : List Nat :=
  u.cells.map Cell.toNat

/-- `chunks(width)` over the flat grid, as used by `Display for Universe`:
successive sub-lists of length `width` (the Rust iterator is empty on an
empty slice and never called with chunk size `0` for the grids at issue).
The recursion is made structural with a fuel argument; with `w ≥ 1` every
chunk consumes at least one element, so fuel `l.length` never runs out. -/
def chunkRowsAux (w : Nat) : Nat → List Cell → List (List Cell)
  | _, [] => []
  | 0, x :: xs => [x :: xs]
  | fuel + 1, x :: xs =>
    if w = 0 then [x :: xs]
    else (x :: xs).take w :: chunkRowsAux w fuel ((x :: xs).drop w)

/-- The chunk list of the grid: `chunkRowsAux` with fuel `l.length`. -/
def chunkRows (w : Nat) (l : List Cell) : List (List Cell) :=
  chunkRowsAux w l.length l

/-- `Display for Universe` (`fmt` in `src/universe.rs`): writes each chunk's
glyphs, then a newline when `idx < chunk.len() - 1` — the row index is
compared against the *chunk length* (the grid width). -/
def render (u : Universe) : String :=
  String.mk
    (((chunkRows u.width u.cells).enum.map (fun ichunk =>
        ichunk.2.map Cell.glyph ++
          if ichunk.1 < ichunk.2.length - 1 then ['\n'] else [])).flatten)

end Universe

/-- Modelled from the spec: the neighbour count described in §4.2 — the sum,
over the eight offsets `(dr, dc) ∈ {-1,0,1} × {-1,0,1}` with `(dr, dc) ≠
(0, 0)`, of the cell value at `((row+dr) mod height, (col+dc) mod width)`
with true non-negative modulo (`%` on `Int` is `Int.emod`, which is
non-negative for a positive modulus). -/
def specNeighborCount (u : Universe) (row col : Nat) : Nat :=
  (([(-1, -1), (-1, 0), (-1, 1), (0, -1), (0, 1), (1, -1), (1, 0), (1, 1)] :
      List (Int × Int)).map (fun d =>
    let r := (((row : Int) + d.1) % (u.height : Int)).toNat
    let c := (((col : Int) + d.2) % (u.width : Int)).toNat
    (u.cells.getD (u.to_index r c) Cell.Dead).toNat)).sum

/-- Modelled from the spec: the §4.2 transition table as a function of
`(state, count)` — Alive with `< 2` dies, Alive with `2` or `3` survives,
Alive with `> 3` dies, Dead with exactly `3` is born, Dead otherwise
stays Dead. -/
def specRuleTable (c : Cell) (n : Nat) : Cell :=
  match c with
  | Cell.Alive => if n < 2 then Cell.Dead
                  else if n = 2 ∨ n = 3 then Cell.Alive
                  else Cell.Dead
  | Cell.Dead => if n = 3 then Cell.Alive else Cell.Dead

/-- The cells produced by a seeding batch when no write goes out of bounds:
a plain fold of in-place `Alive` writes over the grid. -/
def seedFoldCells (u : Universe) (cs : List Cell) (l : List (Nat × Nat)) :
    List Cell :=
  l.foldl (fun cs p => cs.set (u.to_index p.1 p.2) Cell.Alive) cs

theorem Cell.toNat_le_one (c : Cell) : c.toNat ≤ 1 := by
  cases c <;> decide

/-- C2: for every cell state and every neighbour count in `[0, 8]`, the
transition function `hades` matches the §4.2 rule table exactly: Alive with
fewer than two neighbours dies, Alive with two or three survives, Alive
with more than three dies, Dead with exactly three is born, Dead otherwise
stays Dead — a pure, deterministic function of `(state, count)`. -/
theorem hades_matches_rule_table (c : Cell) (n : Nat) (hn : n ≤ 8) :
    hades c n = specRuleTable c n ∧
    (n < 2 → hades Cell.Alive n = Cell.Dead) ∧
    (n = 2 ∨ n = 3 → hades Cell.Alive n = Cell.Alive) ∧
    (3 < n → hades Cell.Alive n = Cell.Dead) ∧
    (hades Cell.Dead 3 = Cell.Alive) ∧
    (n ≠ 3 → hades Cell.Dead n = Cell.Dead) := by
  cases c <;> interval_cases n <;> decide

/-- Witness for C2 at `(Dead, 3)`. -/
theorem hades_matches_rule_table_witness :
    hades Cell.Dead 3 = Cell.Alive :=
  (hades_matches_rule_table Cell.Dead 3 (by decide)).2.2.2.2.1

/-- C7: the coordinate↔index round trip: for in-range `(row, col)`,
`from_index (to_index row col) = (row, col)` with row-major
`to_index row col = width * row + col`; concretely on a 3×3 grid,
`to_index 2 2 = 8`, `to_index 1 0 = 3`, `from_index 8 = (2, 2)`,
`from_index 3 = (1, 0)`, `from_index 0 = (0, 0)`. -/
theorem from_index_to_index (u : Universe) (row col : Nat)
    (hrow : row < u.height) (hcol : col < u.width) :
    u.from_index (u.to_index row col) = (row, col) ∧
    u.to_index row col = u.width * row + col ∧
    (Universe.new 3 3).to_index 2 2 = 8 ∧
    (Universe.new 3 3).to_index 1 0 = 3 ∧
    (Universe.new 3 3).from_index 8 = (2, 2) ∧
    (Universe.new 3 3).from_index 3 = (1, 0) ∧
    (Universe.new 3 3).from_index 0 = (0, 0) := by
  have hw : 0 < u.width := Nat.lt_of_le_of_lt (Nat.zero_le col) hcol
  refine ⟨?_, rfl, by decide, by decide, by decide, by decide, by decide⟩
  unfold Universe.from_index Universe.to_index
  have h1 : (u.width * row + col) / u.width = row := by
    rw [Nat.mul_add_div hw, Nat.div_eq_of_lt hcol, Nat.add_zero]
  have h2 : (u.width * row + col) % u.width = col := by
    rw [Nat.mul_add_mod, Nat.mod_eq_of_lt hcol]
  rw [h1, h2]

/-- Witness for C7 on the 3×3 grid at `(2, 2)`. -/
theorem from_index_to_index_witness :
    (Universe.new 3 3).from_index ((Universe.new 3 3).to_index 2 2) = (2, 2) :=
  (from_index_to_index (Universe.new 3 3) 2 2 (by decide) (by decide)).1

/-- C4: on a 10×10 grid seeded with the glider `{(3,4),(4,5),(5,3),(5,4),
(5,5)}`, one `next_epoch` call leaves exactly `{(4,3),(4,5),(5,4),(5,5),
(6,4)}` alive (row-major indices 43, 45, 54, 55, 64) and every other cell
Dead. -/
theorem glider_step :
    ((Universe.new 10 10).init_cells [(3,4),(4,5),(5,3),(5,4),(5,5)]).map
        (fun u => u.next_epoch.cells_to_arr) =
      some ((List.range 100).map fun i =>
        if i ∈ [43, 45, 54, 55, 64] then 1 else 0) := by
  decide

/-- C5 (divergence): the newline condition in `fmt` compares the row index
against the *chunk length* (the width), not the number of rows, so only
square grids render as the spec describes.  A 3×2 all-Dead grid renders
with a trailing newline after the last row; a 2×3 all-Dead grid loses the
separator between its last two rows; the square 2×2 case happens to match
the spec. -/
theorem render_nonsquare_newlines :
    (Universe.new 3 2).render = "◻◻◻\n◻◻◻\n" ∧
    (Universe.new 2 3).render = "◻◻\n◻◻◻◻" ∧
    (Universe.new 2 2).render = "◻◻\n◻◻" := by
  refine ⟨rfl, rfl, rfl⟩

/-- C1 (counterexample): on a 1×1 universe whose only cell is Alive, the
code's skip condition `r == row && c == col` discards every wrapped
neighbour position, returning 0, while the spec's count over the eight
offsets (excluding only the offset `(0,0)`) returns 8. -/
theorem living_neightbour_count_1x1_ne_spec :
    Universe.living_neightbour_count
        { width := 1, height := 1, cells := [Cell.Alive] } 0 0 = 0 ∧
    specNeighborCount
        { width := 1, height := 1, cells := [Cell.Alive] } 0 0 = 8 ∧
    Universe.living_neightbour_count
        { width := 1, height := 1, cells := [Cell.Alive] } 0 0 ≠
      specNeighborCount
        { width := 1, height := 1, cells := [Cell.Alive] } 0 0 := by
  refine ⟨rfl, rfl, by decide⟩

/-- Wrapping a row by the code's `(row + (h-1)) % h` decrements with
wraparound. -/
theorem wrap_pred_eq (h row : Nat) (hh : 1 ≤ h) (hr : row < h) :
    (row + (h - 1)) % h = if row = 0 then h - 1 else row - 1 := by
  rcases Nat.eq_zero_or_pos row with h0 | h0
  · subst h0
    simp [Nat.mod_eq_of_lt (show h - 1 < h by omega)]
  · have e : row + (h - 1) = (row - 1) + h := by omega
    rw [if_neg (by omega), e, Nat.add_mod_right, Nat.mod_eq_of_lt (by omega)]

/-- Wrapping by the code's `(row + h) % h` is the identity on `[0, h)`. -/
theorem wrap_self_eq (h row : Nat) (hr : row < h) : (row + h) % h = row := by
  rw [Nat.add_mod_right, Nat.mod_eq_of_lt hr]

/-- Wrapping by the code's `(row + (h+1)) % h` increments with
wraparound. -/
theorem wrap_succ_eq (h row : Nat) (hr : row < h) :
    (row + (h + 1)) % h = if row + 1 = h then 0 else row + 1 := by
  have e : row + (h + 1) = (row + 1) + h := by omega
  rw [e, Nat.add_mod_right]
  split_ifs with h1
  · rw [h1, Nat.mod_self]
  · rw [Nat.mod_eq_of_lt (by omega)]

/-- With at least two rows, the decremented wrapped row differs from the
row itself. -/
theorem wrap_pred_ne (h row : Nat) (hh : 2 ≤ h) (hr : row < h) :
    (row + (h - 1)) % h ≠ row := by
  rw [wrap_pred_eq h row (by omega) hr]
  split_ifs with h0 <;> omega

/-- With at least two rows, the incremented wrapped row differs from the
row itself. -/
theorem wrap_succ_ne (h row : Nat) (hh : 2 ≤ h) (hr : row < h) :
    (row + (h + 1)) % h ≠ row := by
  rw [wrap_succ_eq h row hr]
  split_ifs with h0 <;> omega

/-- The spec's true modulo `((row + (k - h)) emod h` on `Int` agrees with
the code's `(row + k) % h` on `Nat`: shifting the delta by the modulus
changes nothing. -/
theorem emod_toNat_eq_wrap (h k row : Nat) (hh : 0 < h) :
    (((row : Int) + ((k : Int) - (h : Int))) % (h : Int)).toNat =
      (row + k) % h := by
  have e : (row : Int) + ((k : Int) - (h : Int)) =
      ((row + k : Nat) : Int) + (h : Int) * (-1) := by push_cast; ring
  rw [e, Int.add_mul_emod_self_left, ← Int.natCast_mod, Int.toNat_natCast]

/-- The spec-side neighbour count is a sum of eight cell values, each at
most 1, hence at most 8. -/
theorem specNeighborCount_le_eight (u : Universe) (row col : Nat) :
    specNeighborCount u row col ≤ 8 := by
  unfold specNeighborCount
  refine le_trans (List.sum_le_card_nsmul _ 1 ?_) ?_
  · intro x hx
    simp only [List.mem_map] at hx
    obtain ⟨d, hd, rfl⟩ := hx
    exact Cell.toNat_le_one _
  · simp

/-- C1 (amended): for every universe with width ≥ 2 and height ≥ 2 and
every in-range `(row, col)`, `living_neightbour_count` returns exactly the
spec's count of Alive cells over the eight toroidally wrapped neighbour
offsets (true non-negative modulo), and the result is at most 8.  (For
width 1 or height 1 the code's skip condition `r == row && c == col`
discards wrapped positions beyond the single offset `(0,0)`, so the claim
as stated fails there.) -/
theorem living_neightbour_count_eq_spec (u : Universe) (row col : Nat)
    (hw : 2 ≤ u.width) (hh : 2 ≤ u.height)
    (hrow : row < u.height) (hcol : col < u.width) :
    u.living_neightbour_count row col = specNeighborCount u row col ∧
    u.living_neightbour_count row col ≤ 8 := by
  have hh1 : (0:Nat) < u.height := by omega
  have hw1 : (0:Nat) < u.width := by omega
  have hrp := wrap_pred_ne u.height row hh hrow
  have hrs := wrap_succ_ne u.height row hh hrow
  have hcp := wrap_pred_ne u.width col hw hcol
  have hcs := wrap_succ_ne u.width col hw hcol
  have hr0 : (row + u.height) % u.height = row := wrap_self_eq _ _ hrow
  have hc0 : (col + u.width) % u.width = col := wrap_self_eq _ _ hcol
  have brp : (((row:Int) + (-1)) % (u.height:Int)).toNat =
      (row + (u.height - 1)) % u.height := by
    have e2 : ((u.height - 1 : Nat) : Int) - (u.height : Int) = -1 := by
      omega
    have e := emod_toNat_eq_wrap u.height (u.height - 1) row hh1
    rw [e2] at e
    exact e
  have br0 : (((row:Int) + 0) % (u.height:Int)).toNat = row := by
    have e2 : ((u.height : Nat) : Int) - (u.height : Int) = 0 := by omega
    have e := emod_toNat_eq_wrap u.height u.height row hh1
    rw [e2] at e
    rw [e, hr0]
  have brs : (((row:Int) + 1) % (u.height:Int)).toNat =
      (row + (u.height + 1)) % u.height := by
    have e2 : ((u.height + 1 : Nat) : Int) - (u.height : Int) = 1 := by omega
    have e := emod_toNat_eq_wrap u.height (u.height + 1) row hh1
    rw [e2] at e
    exact e
  have bcp : (((col:Int) + (-1)) % (u.width:Int)).toNat =
      (col + (u.width - 1)) % u.width := by
    have e2 : ((u.width - 1 : Nat) : Int) - (u.width : Int) = -1 := by omega
    have e := emod_toNat_eq_wrap u.width (u.width - 1) col hw1
    rw [e2] at e
    exact e
  have bc0 : (((col:Int) + 0) % (u.width:Int)).toNat = col := by
    have e2 : ((u.width : Nat) : Int) - (u.width : Int) = 0 := by omega
    have e := emod_toNat_eq_wrap u.width u.width col hw1
    rw [e2] at e
    rw [e, hc0]
  have bcs : (((col:Int) + 1) % (u.width:Int)).toNat =
      (col + (u.width + 1)) % u.width := by
    have e2 : ((u.width + 1 : Nat) : Int) - (u.width : Int) = 1 := by omega
    have e := emod_toNat_eq_wrap u.width (u.width + 1) col hw1
    rw [e2] at e
    exact e
  have heq : u.living_neightbour_count row col = specNeighborCount u row col := by
    simp only [Universe.living_neightbour_count, specNeighborCount,
      List.foldl_cons, List.foldl_nil, List.map_cons, List.map_nil,
      List.sum_cons, List.sum_nil,
      brp, br0, brs, bcp, bc0, bcs, hr0, hc0, hrp, hrs, hcp, hcs]
    simp only [and_true, true_and, and_false, false_and, if_true, if_false,
      ite_true, ite_false, eq_self_iff_true, not_true, not_false_iff]
    omega
  exact ⟨heq, le_of_eq_of_le heq (specNeighborCount_le_eight u row col)⟩

/-- Witness for C1 (amended) on a 4×4 grid at `(1, 2)`. -/
theorem living_neightbour_count_eq_spec_witness :
    (Universe.new 4 4).living_neightbour_count 1 2 =
        specNeighborCount (Universe.new 4 4) 1 2 ∧
    (Universe.new 4 4).living_neightbour_count 1 2 ≤ 8 :=
  living_neightbour_count_eq_spec (Universe.new 4 4) 1 2
    (by decide) (by decide) (by decide) (by decide)

/-- An in-range coordinate maps to an index below `width * height`. -/
theorem to_index_lt (u : Universe) {row col : Nat}
    (hrow : row < u.height) (hcol : col < u.width) :
    u.to_index row col < u.width * u.height := by
  unfold Universe.to_index
  calc u.width * row + col < u.width * row + u.width := by omega
    _ = u.width * (row + 1) := by ring
    _ ≤ u.width * u.height := Nat.mul_le_mul_left _ (by omega)

/-- When every seeded index is in bounds, the seeding fold succeeds and
equals the plain `seedFoldCells` fold. -/
theorem init_cells_foldlM_eq (u : Universe) :
    ∀ (l : List (Nat × Nat)) (cs : List Cell),
      (∀ p ∈ l, u.to_index p.1 p.2 < cs.length) →
      (l.foldlM
          (fun cs p =>
            let idx := u.to_index p.1 p.2
            if idx < cs.length then some (cs.set idx Cell.Alive) else none)
          cs) =
        some (seedFoldCells u cs l) := by
  intro l
  induction l with
  | nil => intro cs h; rfl
  | cons p l ih =>
    intro cs h
    have hp := h p (List.mem_cons_self p l)
    rw [List.foldlM_cons]
    simp only [if_pos hp, Option.some_bind]
    exact ih _ (fun q hq => by
      rw [List.length_set]; exact h q (List.mem_cons_of_mem p hq))

/-- `init_cells` with all indices in bounds yields the `seedFoldCells`
grid. -/
theorem init_cells_eq_some (u : Universe) (l : List (Nat × Nat))
    (hl : ∀ p ∈ l, u.to_index p.1 p.2 < u.cells.length) :
    u.init_cells l = some { u with cells := seedFoldCells u u.cells l } := by
  unfold Universe.init_cells
  rw [init_cells_foldlM_eq u l u.cells hl]
  rfl

/-- A successful seeding fold preserves the grid length. -/
theorem init_cells_foldlM_length (u : Universe) :
    ∀ (l : List (Nat × Nat)) (cs cs' : List Cell),
      (l.foldlM
          (fun cs p =>
            let idx := u.to_index p.1 p.2
            if idx < cs.length then some (cs.set idx Cell.Alive) else none)
          cs) = some cs' →
      cs'.length = cs.length := by
  intro l
  induction l with
  | nil =>
    intro cs cs' h
    cases h
    rfl
  | cons p l ih =>
    intro cs cs' h
    rw [List.foldlM_cons] at h
    by_cases hidx : u.to_index p.1 p.2 < cs.length
    · simp only [if_pos hidx, Option.some_bind] at h
      have := ih _ _ h
      rwa [List.length_set] at this
    · simp only [if_neg hidx] at h
      simp at h

/-- A successful `init_cells` keeps the dimensions and the grid length. -/
theorem init_cells_dims (u u' : Universe) (l : List (Nat × Nat))
    (h : u.init_cells l = some u') :
    u'.width = u.width ∧ u'.height = u.height ∧
      u'.cells.length = u.cells.length := by
  unfold Universe.init_cells at h
  rcases Option.map_eq_some'.mp h with ⟨cs', hfold, rfl⟩
  exact ⟨rfl, rfl, init_cells_foldlM_length u l u.cells cs' hfold⟩

/-- Two `Alive` writes commute, whatever their target indices. -/
theorem set_alive_comm (u : Universe) (cs : List Cell) (p q : Nat × Nat) :
    (cs.set (u.to_index p.1 p.2) Cell.Alive).set (u.to_index q.1 q.2)
        Cell.Alive =
      (cs.set (u.to_index q.1 q.2) Cell.Alive).set (u.to_index p.1 p.2)
        Cell.Alive := by
  by_cases hpq : u.to_index p.1 p.2 = u.to_index q.1 q.2
  · rw [hpq]
  · exact List.set_comm _ _ _ hpq

/-- Permuting the seed batch does not change the resulting grid. -/
theorem seedFoldCells_perm (u : Universe) (cs : List Cell)
    (l l' : List (Nat × Nat)) (hperm : l.Perm l') :
    seedFoldCells u cs l = seedFoldCells u cs l' := by
  unfold seedFoldCells
  exact hperm.foldl_eq' (fun p _ q _ cs => set_alive_comm u cs p q) cs

/-- Pointwise description of a seeded grid: a listed index reads `Alive`,
every other index keeps its old cell. -/
theorem seedFoldCells_getD (u : Universe) :
    ∀ (l : List (Nat × Nat)) (cs : List Cell) (i : Nat),
      (∀ p ∈ l, u.to_index p.1 p.2 < cs.length) →
      (seedFoldCells u cs l).getD i Cell.Dead =
        if ∃ p ∈ l, u.to_index p.1 p.2 = i then Cell.Alive
        else cs.getD i Cell.Dead := by
  intro l
  induction l with
  | nil => intro cs i h; simp [seedFoldCells]
  | cons p l ih =>
    intro cs i h
    have hp := h p (List.mem_cons_self p l)
    have hstep : seedFoldCells u cs (p :: l) =
        seedFoldCells u (cs.set (u.to_index p.1 p.2) Cell.Alive) l := rfl
    rw [hstep, ih _ i (fun q hq => by
      rw [List.length_set]; exact h q (List.mem_cons_of_mem p hq))]
    by_cases hex : ∃ q ∈ l, u.to_index q.1 q.2 = i
    · rcases hex with ⟨q, hq, hqi⟩
      rw [if_pos ⟨q, hq, hqi⟩, if_pos ⟨q, List.mem_cons_of_mem p hq, hqi⟩]
    · rw [if_neg hex]
      by_cases hpi : u.to_index p.1 p.2 = i
      · rw [if_pos ⟨p, List.mem_cons_self p l, hpi⟩, ← hpi]
        rw [List.getD_eq_getElem?_getD, List.getElem?_set_self (by exact hp)]
        rfl
      · rw [if_neg (by
          rintro ⟨q, hq, hqi⟩
          rcases List.mem_cons.mp hq with rfl | hq'
          · exact hpi hqi
          · exact hex ⟨q, hq', hqi⟩)]
        rw [List.getD_eq_getElem?_getD, List.getD_eq_getElem?_getD,
          List.getElem?_set_ne hpi]

/-- Elements accumulated by a fold whose step only ever appends elements
satisfying `P` all satisfy `P`. -/
theorem foldl_mem_of_pred {α : Type} (P : Nat → Prop)
    (f : List Nat → α → List Nat)
    (hf : ∀ acc a i, i ∈ f acc a → i ∈ acc ∨ P i) :
    ∀ (l : List α) (acc : List Nat), (∀ i ∈ acc, P i) →
      ∀ i ∈ l.foldl f acc, P i := by
  intro l
  induction l with
  | nil => intro acc hacc i hi; exact hacc i hi
  | cons a l ih =>
    intro acc hacc i hi
    refine ih (f acc a) ?_ i hi
    intro j hj
    rcases hf acc a j hj with h | h
    · exact hacc j h
    · exact h

/-- C3: `next_epoch` computes every cell's next state entirely from the
old grid: the new grid has the same length, and the new cell at every
index `i` is `hades` of the old cell at `i` and the neighbour count of
`from_index i` taken on the old grid — no update observes another cell's
already-updated value. -/
theorem next_epoch_from_old_grid (u : Universe) (i : Nat)
    (hi : i < u.cells.length) :
    u.next_epoch.cells.length = u.cells.length ∧
    u.next_epoch.cells.getD i Cell.Dead =
      hades (u.cells.getD i Cell.Dead)
        (u.living_neightbour_count (u.from_index i).1 (u.from_index i).2) := by
  constructor
  · simp [Universe.next_epoch]
  · rw [List.getD_eq_getElem?_getD, List.getD_eq_getElem?_getD]
    simp only [Universe.next_epoch, List.getElem?_map, List.getElem?_enum]
    rw [List.getElem?_eq_getElem hi]
    simp

/-- Witness for C3 on a 2×2 grid at index 0. -/
theorem next_epoch_from_old_grid_witness :
    (Universe.new 2 2).next_epoch.cells.length =
        (Universe.new 2 2).cells.length ∧
    (Universe.new 2 2).next_epoch.cells.getD 0 Cell.Dead =
      hades ((Universe.new 2 2).cells.getD 0 Cell.Dead)
        ((Universe.new 2 2).living_neightbour_count
          ((Universe.new 2 2).from_index 0).1
          ((Universe.new 2 2).from_index 0).2) :=
  next_epoch_from_old_grid (Universe.new 2 2) 0 (by decide)

/-- C6: the grid invariant — `new w h` has width `w`, height `h`, exactly
`w * h` cells, all Dead; a successful seeding keeps width, height and
grid length; `next_epoch` keeps width, height and grid length. -/
theorem grid_invariant (w h : Nat) (u u' : Universe) (l : List (Nat × Nat))
    (hseed : u.init_cells l = some u') :
    (Universe.new w h).width = w ∧
    (Universe.new w h).height = h ∧
    (Universe.new w h).cells.length = w * h ∧
    (∀ c ∈ (Universe.new w h).cells, c = Cell.Dead) ∧
    u'.width = u.width ∧ u'.height = u.height ∧
    u'.cells.length = u.cells.length ∧
    u.next_epoch.width = u.width ∧ u.next_epoch.height = u.height ∧
    u.next_epoch.cells.length = u.cells.length := by
  obtain ⟨h1, h2, h3⟩ := init_cells_dims u u' l hseed
  refine ⟨rfl, rfl, by simp [Universe.new], ?_, h1, h2, h3, rfl, rfl,
    by simp [Universe.next_epoch]⟩
  intro c hc
  exact List.eq_of_mem_replicate hc

/-- Witness for C6 with a 2×2 grid seeded at `(0, 0)`. -/
theorem grid_invariant_witness :
    (Universe.new 2 2).width = 2 ∧ (Universe.new 2 2).height = 2 ∧
    (Universe.new 2 2).cells.length = 2 * 2 ∧
    (∀ c ∈ (Universe.new 2 2).cells, c = Cell.Dead) ∧
    ({ width := 2, height := 2,
       cells := [Cell.Alive, Cell.Dead, Cell.Dead, Cell.Dead] } :
        Universe).width = (Universe.new 2 2).width ∧
    ({ width := 2, height := 2,
       cells := [Cell.Alive, Cell.Dead, Cell.Dead, Cell.Dead] } :
        Universe).height = (Universe.new 2 2).height ∧
    ({ width := 2, height := 2,
       cells := [Cell.Alive, Cell.Dead, Cell.Dead, Cell.Dead] } :
        Universe).cells.length = (Universe.new 2 2).cells.length ∧
    (Universe.new 2 2).next_epoch.width = (Universe.new 2 2).width ∧
    (Universe.new 2 2).next_epoch.height = (Universe.new 2 2).height ∧
    (Universe.new 2 2).next_epoch.cells.length =
      (Universe.new 2 2).cells.length :=
  grid_invariant 2 2 (Universe.new 2 2)
    { width := 2, height := 2,
      cells := [Cell.Alive, Cell.Dead, Cell.Dead, Cell.Dead] }
    [(0, 0)] (by decide)

/-- C8: seeding is idempotent, additive and order-independent — seeding a
coordinate twice in one batch, or in two successive calls, equals seeding
it once; permuting a batch leaves the result unchanged; and a successful
batch turns exactly the listed coordinates Alive while every other cell
keeps its previous state (so already-Alive cells stay Alive). -/
theorem seeding_idempotent_commutative (u : Universe) (p : Nat × Nat)
    (l l' : List (Nat × Nat))
    (hp : u.to_index p.1 p.2 < u.cells.length)
    (hl : ∀ q ∈ l, u.to_index q.1 q.2 < u.cells.length)
    (hperm : l.Perm l') :
    u.init_cells [p, p] = u.init_cells [p] ∧
    (u.init_cells [p]).bind (fun v => v.init_cells [p]) = u.init_cells [p] ∧
    u.init_cells l = u.init_cells l' ∧
    ∀ u', u.init_cells l = some u' →
      (∀ i, (∀ q ∈ l, u.to_index q.1 q.2 ≠ i) →
        u'.cells.getD i Cell.Dead = u.cells.getD i Cell.Dead) ∧
      (∀ q ∈ l, u'.cells.getD (u.to_index q.1 q.2) Cell.Dead =
        Cell.Alive) := by
  have hsingle : ∀ q ∈ [p], u.to_index q.1 q.2 < u.cells.length := by
    intro q hq
    rw [List.mem_singleton.mp hq]
    exact hp
  have hdouble : ∀ q ∈ [p, p], u.to_index q.1 q.2 < u.cells.length := by
    intro q hq
    rcases List.mem_cons.mp hq with rfl | hq'
    · exact hp
    · rw [List.mem_singleton.mp hq']
      exact hp
  refine ⟨?_, ?_, ?_, ?_⟩
  · rw [init_cells_eq_some u [p, p] hdouble, init_cells_eq_some u [p] hsingle]
    simp [seedFoldCells, List.set_set]
  · rw [init_cells_eq_some u [p] hsingle]
    simp only [Option.some_bind]
    have hu1 : ({ u with cells := seedFoldCells u u.cells [p] } :
        Universe).init_cells [p]
        = some { u with cells := seedFoldCells u u.cells [p] } := by
      rw [init_cells_eq_some _ [p] ?_]
      · simp [seedFoldCells, List.set_set, Universe.to_index]
      · intro q hq
        rw [List.mem_singleton.mp hq]
        show u.to_index p.1 p.2 < (seedFoldCells u u.cells [p]).length
        simp [seedFoldCells, List.length_set]
        exact hp
    exact hu1
  · rw [init_cells_eq_some u l hl, init_cells_eq_some u l' (fun q hq =>
      hl q (hperm.mem_iff.mpr hq))]
    rw [seedFoldCells_perm u u.cells l l' hperm]
  · intro u' h'
    rw [init_cells_eq_some u l hl] at h'
    cases h'
    constructor
    · intro i hi
      show (seedFoldCells u u.cells l).getD i Cell.Dead = _
      rw [seedFoldCells_getD u l u.cells i hl, if_neg (by
        rintro ⟨q, hq, hqi⟩
        exact hi q hq hqi)]
    · intro q hq
      show (seedFoldCells u u.cells l).getD (u.to_index q.1 q.2) Cell.Dead = _
      rw [seedFoldCells_getD u l u.cells _ hl, if_pos ⟨q, hq, rfl⟩]

/-- Witness for C8: double-seeding `(0, 0)` on a 2×2 grid equals seeding
it once. -/
theorem seeding_idempotent_commutative_witness :
    (Universe.new 2 2).init_cells [((0 : Nat), (0 : Nat)), (0, 0)] =
      (Universe.new 2 2).init_cells [(0, 0)] :=
  (seeding_idempotent_commutative (Universe.new 2 2) (0, 0)
    [(0, 0), (1, 1)] [(1, 1), (0, 0)] (by decide) (by decide) (by decide)).1

/-- C9: `cells_to_arr` returns `width * height` values, each 0 or 1, in
row-major order, 0 for a Dead cell and 1 for an Alive cell at the
corresponding index; concretely, a 2×2 grid seeded at `(0, 0)` and
`(1, 1)` exports `[1, 0, 0, 1]`.  (In the functional model the result is
by construction a fresh value, matching the source's clone-and-collect.) -/
theorem cells_to_arr_spec (u : Universe) (row col : Nat)
    (hwf : u.cells.length = u.width * u.height)
    (hrow : row < u.height) (hcol : col < u.width) :
    u.cells_to_arr.length = u.width * u.height ∧
    (∀ x ∈ u.cells_to_arr, x = 0 ∨ x = 1) ∧
    (u.cells.getD (u.to_index row col) Cell.Dead = Cell.Dead →
      u.cells_to_arr.getD (u.to_index row col) 0 = 0) ∧
    (u.cells.getD (u.to_index row col) Cell.Dead = Cell.Alive →
      u.cells_to_arr.getD (u.to_index row col) 0 = 1) ∧
    ((Universe.new 2 2).init_cells [(0, 0), (1, 1)]).map
        Universe.cells_to_arr = some [1, 0, 0, 1] := by
  have hidx : u.to_index row col < u.cells.length := by
    rw [hwf]; exact to_index_lt u hrow hcol
  have harr : u.cells_to_arr.getD (u.to_index row col) 0 =
      (u.cells.getD (u.to_index row col) Cell.Dead).toNat := by
    rw [List.getD_eq_getElem?_getD, List.getD_eq_getElem?_getD]
    simp only [Universe.cells_to_arr, List.getElem?_map]
    rw [List.getElem?_eq_getElem hidx]
    rfl
  refine ⟨by simp [Universe.cells_to_arr, hwf], ?_, ?_, ?_, by decide⟩
  · intro x hx
    simp only [Universe.cells_to_arr, List.mem_map] at hx
    obtain ⟨c, hc, rfl⟩ := hx
    cases c
    · exact Or.inl rfl
    · exact Or.inr rfl
  · intro hdead
    rw [harr, hdead]
    rfl
  · intro halive
    rw [harr, halive]
    rfl

/-- Witness for C9 on the seeded 2×2 grid. -/
theorem cells_to_arr_spec_witness :
    ((Universe.new 2 2).init_cells [(0, 0), (1, 1)]).map
        Universe.cells_to_arr = some [1, 0, 0, 1] :=
  (cells_to_arr_spec ({ width := 2, height := 2,
                        cells := [Cell.Alive, Cell.Dead, Cell.Dead,
                                  Cell.Alive] } : Universe) 1 1
    (by decide) (by decide) (by decide)).2.2.2.2

/-- C10: with every seeded pair in range (`row < height`, `col < width`)
on a well-formed grid, seeding succeeds (the out-of-bounds panic branch is
unreachable), and every `cells` index read by the neighbour count of an
in-range coordinate is below `width * height`. -/
theorem seed_and_count_accesses_in_bounds (u : Universe)
    (l : List (Nat × Nat)) (row col : Nat)
    (hwf : u.cells.length = u.width * u.height)
    (hl : ∀ q ∈ l, q.1 < u.height ∧ q.2 < u.width)
    (hrow : row < u.height) (hcol : col < u.width) :
    (u.init_cells l).isSome ∧
    ∀ i ∈ u.neighbourAccessIndices row col, i < u.width * u.height := by
  have hh1 : 0 < u.height := by omega
  have hw1 : 0 < u.width := by omega
  constructor
  · rw [init_cells_eq_some u l (fun q hq => by
      rw [hwf]; exact to_index_lt u (hl q hq).1 (hl q hq).2)]
    rfl
  · simp only [Universe.neighbourAccessIndices]
    refine foldl_mem_of_pred (fun i => i < u.width * u.height) _ ?_ _ []
      (by simp)
    intro acc rd i hi
    refine foldl_mem_of_pred (fun j => j ∈ acc ∨ j < u.width * u.height) _
      ?_ _ acc (fun j hj => Or.inl hj) i hi
    intro acc2 cd j hj
    by_cases hcond : (row + rd) % u.height = row ∧ (col + cd) % u.width = col
    · rw [if_pos hcond] at hj
      exact Or.inl hj
    · rw [if_neg hcond] at hj
      rcases List.mem_append.mp hj with h | h
      · exact Or.inl h
      · right; right
        have hjx := List.mem_singleton.mp h
        subst hjx
        exact to_index_lt u (Nat.mod_lt _ hh1) (Nat.mod_lt _ hw1)

/-- Witness for C10 on the 4×4 test grid. -/
theorem seed_and_count_accesses_in_bounds_witness :
    ((Universe.new 4 4).init_cells [((1 : Nat), (2 : Nat)), (2, 0)]).isSome ∧
    ∀ i ∈ (Universe.new 4 4).neighbourAccessIndices 1 1, i < 4 * 4 :=
  seed_and_count_accesses_in_bounds (Universe.new 4 4) [(1, 2), (2, 0)] 1 1
    (by decide) (by decide) (by decide) (by decide)
